import Mathlib

/-!
# Verification of the terraformer-ts resource-to-configuration pipeline

Shallow embedding of the core pipeline of the `terraformer-ts` repository:
the normalized resource record, the filter-expression parser shared by the
service adapters, the per-category post-convert hooks (IAM, SNS, Route53),
the HCL configuration renderer (`HclGenerator`) and the state renderer
(`generateTerraformState`), together with theorems checking the
specification's claims against these definitions.

JavaScript string values are modelled as Lean `String`s; JavaScript objects
(insertion-ordered string-keyed maps) are modelled as association lists
`List (String × HclValue)` whose keys are assumed unique, matching the way
every object in the repository is constructed.  JavaScript `null` and
`undefined` behave identically in every code path modelled here (both are
rendered as `null` and both are treated as "empty" by the field-inclusion
policy), so both are modelled by the single constructor `HclValue.null`.
-/

namespace TerraformerTs

/-- `startsWithChars l pat` is true iff `pat` is a prefix of `l`.  Models
`String.prototype.startsWith` on the underlying character lists. -/
def startsWithChars : List Char → List Char → Bool
  | _, [] => true
  | [], _ :: _ => false
  | c :: cs, p :: ps => c = p && startsWithChars cs ps

/-- `containsChars l pat` is true iff `pat` occurs contiguously inside `l`.
Models `String.prototype.includes` on the underlying character lists. -/
def containsChars : List Char → List Char → Bool
  | [], pat => pat.isEmpty
  | c :: cs, pat => startsWithChars (c :: cs) pat || containsChars cs pat

/-- Models `s.startsWith(pre)` from JavaScript. -/
def jsStartsWith (s pre : String) : Bool :=
  startsWithChars s.toList pre.toList

/-- Models `s.includes(sub)` from JavaScript. -/
def jsIncludes (s sub : String) : Bool :=
  containsChars s.toList sub.toList

/-- Models `s.substring(n)` from JavaScript (drop the first `n` UTF-16 units;
all strings handled by the embedded code are ASCII, so units coincide with
characters). -/
def jsSubstringFrom (s : String) (n : Nat) : String :=
  ⟨s.toList.drop n⟩

/-- Worker for `jsSplit`: splits its third argument at each
non-overlapping occurrence of the (never empty in this codebase)
separator `sep`; `acc` holds the characters of the current piece in
reverse.  The extra fuel argument only makes the recursion structural
(hence kernel-computable); every round consumes at least one character
and exactly one unit of fuel, so with fuel `≥` the input length the
fuel-exhausted branch is unreachable. -/
def jsSplitGo (sep : List Char) : Nat → List Char → List Char → List (List Char)
  | _, [], acc => [acc.reverse]
  | 0, l, acc => [acc.reverse ++ l]
  | fuel + 1, c :: cs, acc =>
    if sep ≠ [] ∧ startsWithChars (c :: cs) sep = true then
      acc.reverse :: jsSplitGo sep fuel ((c :: cs).drop sep.length) []
    else
      jsSplitGo sep fuel cs (c :: acc)
termination_by structural fuel => fuel

/-- Models `s.split(sep)` from JavaScript for a non-empty string separator
(the only separators used by the repository are `"="`, `";"` and `":"`).
The empty-separator case is never exercised and falls back to `[s]`. -/
def jsSplit (s sep : String) : List String :=
  if sep.toList.isEmpty then [s]
  else (jsSplitGo sep.toList s.toList.length s.toList []).map (fun l => ⟨l⟩)

/-- Worker for `jsReplaceAll`: replaces every non-overlapping occurrence of
`pat` (never empty in this codebase) by `repl`, scanning left to right —
the semantics of `String.prototype.replace` with a global regex whose
pattern is a literal string.  The fuel argument makes the recursion
structural, as in `jsSplitGo`; with fuel `≥` the input length the
fuel-exhausted branch is unreachable. -/
def replaceAllChars (pat repl : List Char) : Nat → List Char → List Char
  | _, [] => []
  | 0, l => l
  | fuel + 1, c :: cs =>
    if pat ≠ [] ∧ startsWithChars (c :: cs) pat = true then
      repl ++ replaceAllChars pat repl fuel ((c :: cs).drop pat.length)
    else
      c :: replaceAllChars pat repl fuel cs
termination_by structural fuel => fuel

/-- Models `s.replace(/pat/g, repl)` where `pat` is a literal pattern and
`repl` is the already-expanded replacement text. -/
def jsReplaceAll (s pat repl : String) : String :=
  ⟨replaceAllChars pat.toList repl.toList s.toList.length s.toList⟩

/-- Worker for `jsReplaceFirst`: replaces the first occurrence of `pat`
by `repl` (the semantics of `String.prototype.replace` with a string
pattern). -/
def replaceFirstChars (pat repl : List Char) : List Char → List Char
  | [] => if pat.isEmpty then repl else []
  | c :: cs =>
    if startsWithChars (c :: cs) pat then repl ++ (c :: cs).drop pat.length
    else c :: replaceFirstChars pat repl cs

/-- Models `s.replace(pat, repl)` from JavaScript with a plain string
pattern: only the first occurrence is replaced. -/
def jsReplaceFirst (s pat repl : String) : String :=
  ⟨replaceFirstChars pat.toList repl.toList s.toList⟩

/-- The recursive JSON-like attribute value type of a resource record
(`src/types`: scalars, lists and nested mappings).  `null` models both the
JavaScript `null` and `undefined` (see the module comment); numbers are
modelled by integers, the only numeric values the embedded code produces. -/
inductive HclValue where
  | null
  | str (s : String)
  | num (n : Int)
  | bool (b : Bool)
  | list (xs : List HclValue)
  | obj (fields : List (String × HclValue))

/-- First value stored under `key`, i.e. `fields[key]` on a JavaScript
object modelled as an association list (`none` = the key is absent /
the access evaluates to `undefined`). -/
def getField (fields : List (String × HclValue)) (key : String) : Option HclValue :=
  match fields with
  | [] => none
  | (k, v) :: rest => if k = key then some v else getField rest key

/-- JavaScript property assignment `fields[key] = v`: overwrite in place if
the key exists, else append. -/
def setField (fields : List (String × HclValue)) (key : String) (v : HclValue) :
    List (String × HclValue) :=
  match fields with
  | [] => [(key, v)]
  | (k, w) :: rest => if k = key then (k, v) :: rest else (k, w) :: setField rest key v

/-- JavaScript `delete fields[key]`: drop the (unique) entry stored under
`key`, keeping the other entries in order. -/
def delField (fields : List (String × HclValue)) (key : String) :
    List (String × HclValue) :=
  match fields with
  | [] => []
  | (k, w) :: rest => if k = key then delField rest key else (k, w) :: delField rest key

/-- JavaScript spread merge `{...a, ...b}`: the keys of `a` in order (values
overridden by `b` on collision), then the keys of `b` not present in `a`. -/
def mergeFields (a b : List (String × HclValue)) : List (String × HclValue) :=
  a.map (fun p => match getField b p.1 with
    | some v => (p.1, v)
    | none => p) ++ b.filter (fun p => (getField a p.1).isNone)

/-- JavaScript truthiness of an attribute value. -/
def truthy : HclValue → Bool
  | .null => false
  | .str s => s ≠ ""
  | .num n => n ≠ 0
  | .bool b => b
  | .list _ => true
  | .obj _ => true

/-- JavaScript truthiness of a possibly-absent attribute value
(`undefined` is falsy). -/
def truthyOpt : Option HclValue → Bool
  | none => false
  | some v => truthy v

/-- JavaScript strict equality `===` on attribute values.  Lists and
objects compare by reference in JavaScript; the two operands compared by
the embedded code are always values discovered independently in distinct
resources, hence never the same reference, so non-primitive operands
compare unequal here. -/
def jsStrictEq : HclValue → HclValue → Bool
  | .null, .null => true
  | .str a, .str b => a = b
  | .num a, .num b => a = b
  | .bool a, .bool b => a = b
  | _, _ => false

/-- Strict equality lifted to possibly-absent values
(`undefined === undefined` is true). -/
def jsStrictEqOpt : Option HclValue → Option HclValue → Bool
  | none, none => true
  | some a, some b => jsStrictEq a b
  | _, _ => false

/-- The normalized Resource Record (`TerraformResource` in `src/types`).
The optional fields `dependencies`, `ignoreKeys` and `allowEmptyValues`
are modelled as plain lists, the empty list standing for `undefined`:
every read of them in the embedded code (`?.some(...)`, `|| []`) treats
`undefined` exactly like an empty array. -/
structure TerraformResource where
  id : String
  type : String
  name : String
  provider : String
  attributes : List (String × HclValue)
  additionalFields : List (String × HclValue)
  dependencies : List String := []
  ignoreKeys : List String := []
  allowEmptyValues : List String := []

/-- A parsed filter predicate (`ResourceFilter` in `src/types`).  The
source also stores an `isApplicable` closure; it only captures
`serviceName`, so it is modelled by the standalone `isApplicable`
function below. -/
structure ResourceFilter where
  serviceName : String
  fieldPath : String
  acceptableValues : List String
deriving DecidableEq, Repr

/-- The applicability closure built by every `parseFilter`:
`(resourceName) => serviceName === '' || serviceName === resourceName`. -/
def isApplicable (f : ResourceFilter) (resourceName : String) : Bool :=
  f.serviceName = "" || f.serviceName = resourceName

/-- Embeds `parseFilter` — the identical method of `EC2Service`
(`src/src/providers/aws/services/ec2.ts:158-189`), `IAMService`,
`Route53Service` and `SNSService`.  In the identifier-list branch the
element `parts[1]` always exists because the branch requires the raw
filter to contain `'='`; the `getD`/`headD` defaults are never hit. -/
def parseFilter (rawFilter : String) : List ResourceFilter :=
  if !(jsIncludes rawFilter "Name=") && jsIncludes rawFilter "=" then
    -- Simple ID-based filter: resource=id1:id2:id3
    let parts := jsSplit rawFilter "="
    let serviceName := parts.headD ""
    let resourcesId := (parts.drop 1).headD ""
    [{ serviceName := serviceName, fieldPath := "id",
       acceptableValues := jsSplit resourcesId ":" }]
  else
    -- Complex filter: Type=instance;Name=instance_type;Value=t3.micro
    let parts := jsSplit rawFilter ";"
    if parts.length ≥ 1 then
      let p0 := parts.headD ""
      let serviceName := if jsStartsWith p0 "Type=" then jsSubstringFrom p0 5 else ""
      let fieldPath :=
        match parts[1]? with
        | some p1 => if jsStartsWith p1 "Name=" then jsSubstringFrom p1 5 else p0
        | none => p0
      let acceptableValues :=
        match parts[2]? with
        | some p2 => if jsStartsWith p2 "Value=" then jsSplit (jsSubstringFrom p2 6) ":" else []
        | none => []
      [{ serviceName := serviceName, fieldPath := fieldPath,
         acceptableValues := acceptableValues }]
    else []

/-- Embeds `Terraformer.applyFilters` (`src/unnamed/part_000-series`, the
`terraformer` orchestrator): the loop body calls `service.parseFilter`
on each raw expression but never uses the parsed predicates, so the
resource list is returned unchanged. -/
def applyFilters (resources : List TerraformResource) (filters : List String) :
    List TerraformResource :=
  filters.foldl (fun acc rawFilter =>
    let _parsedFilters := parseFilter rawFilter
    acc) resources

/-- The character class `[a-zA-Z0-9_-]` of `BaseService.sanitizeName`. -/
def sanitizeKeep (c : Char) : Bool :=
  c.isAlpha || c.isDigit || c = '_' || c = '-'

/-- The regex step `replace(/^[0-9]/, '_$&')`: a leading digit gets an
underscore prefixed. -/
def sanitizeLeadingDigit : List Char → List Char
  | [] => []
  | c :: cs => if c.isDigit then '_' :: c :: cs else c :: cs

/-- Embeds `BaseService.sanitizeName` (`src/src/core/provider.ts:123-129`):
replace every character outside `[a-zA-Z0-9_-]` by `_`, prefix a leading
digit with `_`, then lowercase.  (An astral character counts as two
UTF-16 units in the source and yields two underscores there instead of
one; this does not affect which character classes the result draws
from.) -/
def sanitizeName (s : String) : String :=
  ⟨(sanitizeLeadingDigit (s.toList.map (fun c => if sanitizeKeep c then c else '_'))).map
    Char.toLower⟩

/-- The anchored regex `^[_a-zA-Z][_a-zA-Z0-9-]*$` from the specification's
sanitization-range property, as a decidable test. -/
def matchesTfName (s : String) : Bool :=
  match s.toList with
  | [] => false
  | c :: cs => (c = '_' || c.isAlpha) && cs.all (fun d => d = '_' || d.isAlpha || d.isDigit || d = '-')

/-- String escaping inside `HclGenerator.formatHclValue`
(`src/src/core/hcl-generator.ts:183`):
`value.replace(/"/g, '\\"').replace(/\n/g, '\\n')`. -/
def hclStringEscape (v : String) : String :=
  jsReplaceAll (jsReplaceAll v "\"" "\\\"") "\n" "\\n"

mutual

/-- Embeds `HclGenerator.formatHclValue`
(`src/src/core/hcl-generator.ts:176-202`).  The trailing
`return `"${String(value)}"`` fallback of the source is unreachable on
the modelled value domain (the `typeof` chain covers every constructor). -/
def formatHclValue : HclValue → String
  | .null => "null"
  | .str s => "\"" ++ hclStringEscape s ++ "\""
  | .num n => toString n
  | .bool b => if b then "true" else "false"
  | .list xs => "[" ++ String.intercalate ", " (formatHclValueList xs) ++ "]"
  | .obj fields =>
    "\x7b\n    " ++ String.intercalate ",\n    " (formatHclObjEntries fields) ++ "\n  \x7d"
termination_by structural v => v

/-- `value.map(item => this.formatHclValue(item))` in the list case. -/
def formatHclValueList : List HclValue → List String
  | [] => []
  | v :: vs => formatHclValue v :: formatHclValueList vs
termination_by structural l => l

/-- `Object.entries(value).map(([k, v]) => ...)` in the object case. -/
def formatHclObjEntries : List (String × HclValue) → List String
  | [] => []
  | (k, v) :: fs => (k ++ " = " ++ formatHclValue v) :: formatHclObjEntries fs
termination_by structural l => l

end

/-- Models `new RegExp(pattern).test(key)` as used by
`HclGenerator.shouldIncludeAttribute`: for the literal (metacharacter-free)
patterns this repository stores in `ignoreKeys`/`allowEmptyValues`, an
unanchored regex test is substring containment. -/
def regexTest (pattern key : String) : Bool :=
  containsChars key.toList pattern.toList

/-- The emptiness test `value === null || value === undefined || value === ''`
of `HclGenerator.shouldIncludeAttribute`. -/
def isEmptyJsValue : HclValue → Bool
  | .null => true
  | .str s => s = ""
  | _ => false

/-- Embeds `HclGenerator.shouldIncludeAttribute`
(`src/src/core/hcl-generator.ts:159-174`). -/
def shouldIncludeAttribute (key : String) (value : HclValue) (r : TerraformResource) : Bool :=
  if r.ignoreKeys.any (fun pattern => regexTest pattern key) then false
  else if isEmptyJsValue value then
    r.allowEmptyValues.any (fun pattern => regexTest pattern key)
  else true

/-- The grouping key `resource.type.replace(`${resource.provider}_`, '')`. -/
def stripProviderFromType (r : TerraformResource) : String :=
  jsReplaceFirst r.type (r.provider ++ "_") ""

/-- One step of the `grouped[type].push(resource)` accumulation: append the
resource to the group with this key, or start a new group at the end
(JavaScript objects preserve insertion order of string keys). -/
def pushGroup (acc : List (String × List TerraformResource)) (key : String)
    (r : TerraformResource) : List (String × List TerraformResource) :=
  match acc with
  | [] => [(key, [r])]
  | (k, l) :: rest =>
    if k = key then (k, l ++ [r]) :: rest else (k, l) :: pushGroup rest key r

/-- Embeds `HclGenerator.groupResourcesByType`
(`src/src/core/hcl-generator.ts:145-157`). -/
def groupResourcesByType (resources : List TerraformResource) :
    List (String × List TerraformResource) :=
  resources.foldl (fun acc r => pushGroup acc (stripProviderFromType r) r) []

/-- The flat sequence of resources in the order
`generateHclResources` emits their blocks. -/
def groupedResourceOrder (resources : List TerraformResource) : List TerraformResource :=
  ((groupResourcesByType resources).map (fun g => g.2)).flatten

/-- One `resource "<type>" "<name>" { ... }` block of
`HclGenerator.generateHclResources`: the merged
`{...resource.attributes, ...resource.additionalFields}` entries filtered
by `shouldIncludeAttribute`. -/
def resourceBlock (r : TerraformResource) : String :=
  "resource \"" ++ r.type ++ "\" \"" ++ r.name ++ "\" \x7b\n" ++
    String.join ((mergeFields r.attributes r.additionalFields).map (fun p =>
      if shouldIncludeAttribute p.1 p.2 r then
        "  " ++ p.1 ++ " = " ++ formatHclValue p.2 ++ "\n"
      else "")) ++
    "\x7d\n\n"

/-- Embeds `HclGenerator.generateHclResources`
(`src/src/core/hcl-generator.ts:122-143`): blocks are emitted per group
and, inside a group, in list order. -/
def generateHclResources (resources : List TerraformResource) : String :=
  String.join ((groupedResourceOrder resources).map resourceBlock)

/-- One instance record of a state entry
(`src/src/core/hcl-generator.ts:219-225`); `priv` holds the randomly
generated token the source stores under the key named after visibility,
injected as a parameter. -/
structure StateInstance where
  schema_version : Nat
  attributes : List (String × HclValue)
  sensitive_attributes : List HclValue
  priv : String
  dependencies : List String

/-- One entry of the state document's `resources` array
(`src/src/core/hcl-generator.ts:214-226`). -/
structure StateResource where
  mode : String
  type : String
  name : String
  provider : String
  instances : List StateInstance

/-- The state document (`src/src/core/hcl-generator.ts:208-227`);
`lineage` is the randomly generated lineage identifier, injected as a
parameter. -/
structure TerraformState where
  version : Nat
  terraform_version : String
  serial : Nat
  lineage : String
  outputs : List (String × HclValue)
  resources : List StateResource

/-- The state entry built for one resource by
`generateTerraformState`'s `resources.map(...)` body. -/
def stateEntryOf (r : TerraformResource) (pk : String) : StateResource :=
  { mode := "managed"
    type := r.type
    name := r.name
    provider := "provider[\"registry.terraform.io/hashicorp/" ++ r.provider ++ "\"]"
    instances := [{ schema_version := 0
                    attributes := r.attributes
                    sensitive_attributes := []
                    priv := pk
                    dependencies := r.dependencies }] }

/-- The `resources.map(...)` of `generateTerraformState`; the fresh
`generatePrivateKey()` call per element is modelled by indexing the
injected `priv` stream by position. -/
def stateEntriesFrom (priv : Nat → String) : List TerraformResource → Nat → List StateResource
  | [], _ => []
  | r :: rs, i => stateEntryOf r (priv i) :: stateEntriesFrom priv rs (i + 1)

/-- Embeds `HclGenerator.generateTerraformState`
(`src/src/core/hcl-generator.ts:204-231`) up to its two random inputs
(`lineage`, per-resource `private` tokens), which are injected as
parameters. -/
def generateTerraformState (resources : List TerraformResource) (lineage : String)
    (priv : Nat → String) : TerraformState :=
  { version := 4
    terraform_version := "1.0.0"
    serial := 1
    lineage := lineage
    outputs := []
    resources := stateEntriesFrom priv resources 0 }

/-- Embeds `escapeAwsInterpolation`
(`src/src/providers/aws/services/iam.ts:513-515`, identical in the SNS
service): `policy.replace(/\$\{/g, '$${')`.  In a JavaScript replacement
string `$$` denotes one literal `$`, so the replacement text is `${` —
each matched `${` is replaced by `${` and the function is the identity. -/
def escapeAwsInterpolation (policy : String) : String :=
  jsReplaceAll policy "$\x7b" "$\x7b"

/-- The heredoc wrapper applied by the IAM and SNS hooks:
`` `<<POLICY\n${policy}\nPOLICY` ``. -/
def heredocWrap (policy : String) : String :=
  "<<POLICY\n" ++ policy ++ "\nPOLICY"

/-- Per-resource body of `IAMService.postConvertHook`
(`src/src/providers/aws/services/iam.ts:486-511`).  The truthiness guards
`resource.attributes.policy` / `.assume_role_policy` are modelled on the
string case only: every policy attribute the adapter stores is a string,
and a truthy non-string would make the source throw inside `.replace`. -/
def iamProcess (r : TerraformResource) : TerraformResource :=
  if r.type = "aws_iam_policy" || r.type = "aws_iam_user_policy" ||
      r.type = "aws_iam_group_policy" || r.type = "aws_iam_role_policy" then
    match getField r.attributes "policy" with
    | some (.str s) =>
      if s ≠ "" then
        let wrapped := HclValue.str (heredocWrap (escapeAwsInterpolation s))
        { r with attributes := setField r.attributes "policy" wrapped }
      else r
    | _ => r
  else if r.type = "aws_iam_role" then
    match getField r.attributes "assume_role_policy" with
    | some (.str s) =>
      if s ≠ "" then
        let wrapped := HclValue.str (heredocWrap (escapeAwsInterpolation s))
        { r with attributes := setField r.attributes "assume_role_policy" wrapped }
      else r
    | _ => r
  else if r.type = "aws_iam_instance_profile" then
    -- Remove roles field as it's managed separately
    { r with attributes := delField r.attributes "roles" }
  else r

/-- Embeds `IAMService.postConvertHook`: the in-place `for` loop touches
each resource independently, so it is a map. -/
def iamPostConvertHook (resources : List TerraformResource) : List TerraformResource :=
  resources.map iamProcess

/-- Per-resource body of `SNSService.postConvertHook`
(`src/unnamed/part_001:125-141`); same modelling notes as `iamProcess`. -/
def snsProcess (r : TerraformResource) : TerraformResource :=
  if r.type = "aws_sns_topic" then
    match getField r.attributes "policy" with
    | some (.str s) =>
      if s ≠ "" then
        let wrapped := HclValue.str (heredocWrap (escapeAwsInterpolation s))
        { r with attributes := setField r.attributes "policy" wrapped }
      else r
    | _ => r
  else r

/-- Embeds `SNSService.postConvertHook`. -/
def snsPostConvertHook (resources : List TerraformResource) : List TerraformResource :=
  resources.map snsProcess

/-- The reference expression the Route53 hook writes:
`` `\${aws_route53_zone.${zoneResource.name}.zone_id}` ``. -/
def route53ZoneRef (zoneName : String) : String :=
  "$\x7baws_route53_zone." ++ zoneName ++ ".zone_id\x7d"

/-- The inner `for ... break` lookup of `Route53Service.postConvertHook`:
the first resource of type `aws_route53_zone` whose
`additionalFields?.zone_id` is strictly equal to the record's zone id. -/
def findZoneFor (all : List TerraformResource) (zoneId : Option HclValue) :
    Option TerraformResource :=
  all.find? (fun z =>
    z.type = "aws_route53_zone" &&
      jsStrictEqOpt (getField z.additionalFields "zone_id") zoneId)

/-- The `.length === 0` test applied to `child_healthchecks`; `.length` on
a non-array non-string value is `undefined`, which is not strictly equal
to `0`. -/
def jsLengthIsZero : HclValue → Bool
  | .list xs => xs.isEmpty
  | .str s => s = ""
  | _ => false

/-- Per-resource body of `Route53Service.postConvertHook`
(`src/src/providers/aws/services/kinesis.ts:260-291`).  The source loop
mutates records in place while the zone lookup scans the same live array;
since the loop only ever mutates `attributes` of records and health
checks and the lookup only reads `additionalFields` of zones, scanning
the original list is equivalent. -/
def route53Process (all : List TerraformResource) (r : TerraformResource) :
    TerraformResource :=
  if r.type = "aws_route53_record" then
    let zoneId := getField r.attributes "zone_id"
    -- Find the corresponding zone resource and replace with reference
    let r1 :=
      match findZoneFor all zoneId with
      | some zoneResource =>
        { r with attributes :=
            setField r.attributes "zone_id" (HclValue.str (route53ZoneRef zoneResource.name)) }
      | none => r
    -- Remove TTL if alias is present
    if truthyOpt (getField r1.additionalFields "alias") then
      { r1 with attributes := delField r1.attributes "ttl" }
    else r1
  else if r.type = "aws_route53_health_check" then
    -- Remove child_health_threshold if no child health checks
    if !truthyOpt (getField r.additionalFields "child_healthchecks") ||
        (match getField r.additionalFields "child_healthchecks" with
         | some v => jsLengthIsZero v
         | none => false) then
      if truthyOpt (getField r.additionalFields "child_health_threshold") then
        { r with attributes := delField r.attributes "child_health_threshold" }
      else r
    else r
  else r

/-- Embeds `Route53Service.postConvertHook`. -/
def route53PostConvertHook (resources : List TerraformResource) :
    List TerraformResource :=
  resources.map (route53Process resources)

/-- Modelled from the spec: navigation of a dotted `fieldPath` into a
resource's nested attribute mappings (§4.1 "supports dotted paths into
nested mappings"); the special path `id` reads the resource record's
native identifier, the field the identifier-list filter form targets.
The source repository parses filters but never evaluates them
(`Terraformer.applyFilters` discards the predicates), so evaluation has
no source counterpart. -/
def valueAtPathSegs : List String → HclValue → Option HclValue
  | [], v => some v
  | seg :: segs, .obj fields =>
    match getField fields seg with
    | some v => valueAtPathSegs segs v
    | none => none
  | _ :: _, _ => none

/-- Modelled from the spec: the resource's value at a filter's
`fieldPath` (see `valueAtPathSegs`). -/
def resourceValueAtPath (r : TerraformResource) (path : String) : Option HclValue :=
  if path = "id" then some (.str r.id)
  else
    match jsSplit path "." with
    | [] => none
    | seg :: segs =>
      match getField r.attributes seg with
      | some v => valueAtPathSegs segs v
      | none => none

mutual

/-- Modelled from the spec: the string forms a field value contributes to
the intersection test (a string is itself; a list contributes its
elements' strings). -/
def valueStrings : HclValue → List String
  | .str s => [s]
  | .list xs => valueStringsList xs
  | _ => []
termination_by structural v => v

/-- List worker for `valueStrings`. -/
def valueStringsList : List HclValue → List String
  | [] => []
  | v :: vs => valueStrings v ++ valueStringsList vs
termination_by structural l => l

end

/-- Modelled from the spec (§4.1): "a resource passes a given filter iff
the filter is not applicable to that resource's category (vacuously
true) OR the resource's value at `fieldPath` intersects
`acceptableValues`". -/
def passesFilter (category : String) (r : TerraformResource) (f : ResourceFilter) : Bool :=
  !(isApplicable f category) ||
    (match resourceValueAtPath r f.fieldPath with
     | some v => (valueStrings v).any (fun s => f.acceptableValues.contains s)
     | none => false)

/-- Modelled from the spec (§4.1): "Multiple filters are combined with
logical AND across all supplied expressions". -/
def passesAllFilters (category : String) (r : TerraformResource)
    (exprs : List String) : Bool :=
  exprs.all (fun e => (parseFilter e).all (passesFilter category r))

/-! ### Concrete inputs used by the claim theorems -/

/-- An EC2 instance resource whose `id` is not accepted by the filter
expression `ec2=i-1`. -/
def ec2Unmatched : TerraformResource :=
  { id := "i-2", type := "aws_instance", name := "inst", provider := "aws",
    attributes := [("instance_type", .str "t3.micro")], additionalFields := [] }

/-- An IAM managed-policy resource whose policy document is the two-character
string rendered by `\x7b\x7d` (an empty JSON object). -/
def iamPolicyEmptyDoc : TerraformResource :=
  { id := "arn:aws:iam::1:policy/p1", type := "aws_iam_policy", name := "p1",
    provider := "aws",
    attributes := [("name", .str "p1"), ("policy", .str "\x7b\x7d")],
    additionalFields := [] }

/-- An IAM managed-policy resource whose policy document contains the AWS
policy variable `$\x7baws:SourceIp\x7d`. -/
def iamPolicyInterp : TerraformResource :=
  { id := "arn:aws:iam::1:policy/p2", type := "aws_iam_policy", name := "p2",
    provider := "aws",
    attributes := [("policy", .str "$\x7baws:SourceIp\x7d")],
    additionalFields := [] }

/-- An SNS topic resource with a non-empty policy document. -/
def snsTopicRes : TerraformResource :=
  { id := "arn:aws:sns:us-east-1:1:t", type := "aws_sns_topic", name := "t",
    provider := "aws",
    attributes := [("policy", .str "\x7b\x7d")], additionalFields := [] }

/-- A Route53 hosted-zone resource with native id `Z123`, as
`loadHostedZones` builds it. -/
def zoneZ123 : TerraformResource :=
  { id := "Z123", type := "aws_route53_zone", name := "z123_example_com",
    provider := "aws",
    attributes := [("name", .str "example.com."), ("force_destroy", .bool false)],
    additionalFields := [("zone_id", .str "Z123"), ("name_servers", .list []),
      ("comment", .null), ("private_zone", .bool false)] }

/-- A Route53 record resource whose `zone_id` attribute is literally `Z123`,
as `loadResourceRecordSets` builds it. -/
def recordZ123 : TerraformResource :=
  { id := "Z123_www.example.com_A_", type := "aws_route53_record",
    name := "z123_www_example_com_a_", provider := "aws",
    attributes := [("name", .str "www.example.com"), ("zone_id", .str "Z123"),
      ("type", .str "A"), ("set_identifier", .str "")],
    additionalFields := [("ttl", .num 300), ("records", .list [.str "1.2.3.4"])] }

/-- A Route53 alias record that also carries a TTL value: its
`additionalFields` hold both `ttl` and a truthy `alias` object. -/
def recordAliasTtl : TerraformResource :=
  { id := "Z9_api.example.com_A_", type := "aws_route53_record",
    name := "z9_api_example_com_a_", provider := "aws",
    attributes := [("name", .str "api.example.com"), ("zone_id", .str "Z9"),
      ("type", .str "A"), ("set_identifier", .str "")],
    additionalFields := [("ttl", .num 300), ("records", .list []),
      ("alias", .obj [("name", .str "d.example.com"), ("zone_id", .str "Z8"),
        ("evaluate_target_health", .bool true)])] }

/-- The specification's field-inclusion example resource with
`attributes = \x7ba: "", b: "x"\x7d` and `allowEmptyValues = ["a"]`. -/
def allowEmptyExample : TerraformResource :=
  { id := "1", type := "aws_thing", name := "n", provider := "aws",
    attributes := [("a", .str ""), ("b", .str "x")], additionalFields := [],
    allowEmptyValues := ["a"] }

/-- The same resource without `allowEmptyValues`. -/
def noAllowEmptyExample : TerraformResource :=
  { allowEmptyExample with allowEmptyValues := [] }

/-- A two-resource list with distinct `(type, name)` pairs, used to
instantiate the config/state parity theorem. -/
def parityDemoList : List TerraformResource :=
  [{ id := "i-1", type := "aws_instance", name := "a", provider := "aws",
     attributes := [("instance_type", .str "t3.micro")], additionalFields := [] },
   { id := "vpc-1", type := "aws_vpc", name := "b", provider := "aws",
     attributes := [("cidr_block", .str "10.0.0.0/16")], additionalFields := [] }]

/-! ### Association-list lemmas -/

theorem getField_setField_self (f : List (String × HclValue)) (k : String) (v : HclValue) :
    getField (setField f k v) k = some v := by
  induction f with
  | nil => simp [setField, getField]
  | cons p rest ih =>
    obtain ⟨k', w⟩ := p
    by_cases h : k' = k <;> simp [setField, getField, h, ih]

theorem getField_delField_ne (f : List (String × HclValue)) (kd k : String)
    (h : k ≠ kd) : getField (delField f kd) k = getField f k := by
  induction f with
  | nil => simp [delField]
  | cons p rest ih =>
    obtain ⟨k', w⟩ := p
    by_cases hk : k' = kd
    · subst hk
      have hne : ¬ k' = k := fun he => h he.symm
      simp [delField, getField, hne, ih]
    · by_cases hke : k' = k
      · subst hke
        simp [delField, getField, hk]
      · simp [delField, getField, hk, hke, ih]

/-! ### Claim C3: Route53 cross-reference rewriting -/

/-- **C3.** For every resource set containing a route53 zone with native
zone id `zid` and a route53 record whose `zone_id` attribute is literally
`zid`, after the cross-reference post-convert hook runs the record's
`zone_id` attribute equals `$\x7baws_route53_zone.<zone-name>.zone_id\x7d`
for the matched zone; and when no zone in the set matches, the literal
value is left unchanged (the hook is total, hence never fails). -/
theorem c3_route53_zone_crossref
    (resources : List TerraformResource) (r : TerraformResource)
    (hr : r ∈ resources) (hty : r.type = "aws_route53_record") :
    route53Process resources r ∈ route53PostConvertHook resources
    ∧ (∀ (zid : String) (z : TerraformResource), z ∈ resources →
        z.type = "aws_route53_zone" →
        getField z.additionalFields "zone_id" = some (.str zid) →
        getField r.attributes "zone_id" = some (.str zid) →
        ∃ z' : TerraformResource, z'.type = "aws_route53_zone" ∧
          getField z'.additionalFields "zone_id" = some (.str zid) ∧
          getField (route53Process resources r).attributes "zone_id" =
            some (.str (route53ZoneRef z'.name)))
    ∧ (findZoneFor resources (getField r.attributes "zone_id") = none →
        getField (route53Process resources r).attributes "zone_id" =
          getField r.attributes "zone_id") := by
  have hproc : route53Process resources r =
      (let r1 :=
        match findZoneFor resources (getField r.attributes "zone_id") with
        | some zoneResource =>
          { r with attributes :=
              setField r.attributes "zone_id" (HclValue.str (route53ZoneRef zoneResource.name)) }
        | none => r
      if truthyOpt (getField r1.additionalFields "alias") then
        { r1 with attributes := delField r1.attributes "ttl" }
      else r1) := by
    unfold route53Process
    rw [if_pos hty]
  refine ⟨List.mem_map_of_mem _ hr, ?_, ?_⟩
  · intro zid z hz hzty hzid hrzid
    have hpred : (fun z' => z'.type = "aws_route53_zone" &&
        jsStrictEqOpt (getField z'.additionalFields "zone_id")
          (getField r.attributes "zone_id")) z = true := by
      simp [hzty, hzid, hrzid, jsStrictEqOpt, jsStrictEq]
    have hsome : (List.find? (fun z' => z'.type = "aws_route53_zone" &&
        jsStrictEqOpt (getField z'.additionalFields "zone_id")
          (getField r.attributes "zone_id")) resources).isSome :=
      List.find?_isSome.mpr ⟨z, hz, hpred⟩
    cases hfind' : List.find? (fun z' => z'.type = "aws_route53_zone" &&
        jsStrictEqOpt (getField z'.additionalFields "zone_id")
          (getField r.attributes "zone_id")) resources with
    | none => rw [hfind'] at hsome; simp at hsome
    | some z' =>
    have hfind : findZoneFor resources (getField r.attributes "zone_id") = some z' := hfind'
    have hz'pred := List.find?_some hfind'
    simp only [Bool.and_eq_true, decide_eq_true_eq] at hz'pred
    obtain ⟨hz'ty, hz'eq⟩ := hz'pred
    have hz'zid : getField z'.additionalFields "zone_id" = some (.str zid) := by
      rw [hrzid] at hz'eq
      cases hx : getField z'.additionalFields "zone_id" with
      | none => rw [hx] at hz'eq; simp [jsStrictEqOpt] at hz'eq
      | some v =>
        rw [hx] at hz'eq
        cases v with
        | str a =>
          simp only [jsStrictEqOpt, jsStrictEq, decide_eq_true_eq] at hz'eq
          rw [hz'eq]
        | null => simp [jsStrictEqOpt, jsStrictEq] at hz'eq
        | num n => simp [jsStrictEqOpt, jsStrictEq] at hz'eq
        | bool b => simp [jsStrictEqOpt, jsStrictEq] at hz'eq
        | list xs => simp [jsStrictEqOpt, jsStrictEq] at hz'eq
        | obj fs => simp [jsStrictEqOpt, jsStrictEq] at hz'eq
    refine ⟨z', hz'ty, hz'zid, ?_⟩
    rw [hproc, hfind]
    by_cases halias : truthyOpt (getField r.additionalFields "alias") = true
    · simp only [halias, if_true]
      rw [getField_delField_ne _ _ _ (by decide)]
      exact getField_setField_self _ _ _
    · simp only [Bool.not_eq_true] at halias
      simp only [halias, Bool.false_eq_true, if_false]
      exact getField_setField_self _ _ _
  · intro hnone
    rw [hproc, hnone]
    by_cases halias : truthyOpt (getField r.additionalFields "alias") = true
    · simp only [halias, if_true]
      exact getField_delField_ne _ _ _ (by decide)
    · simp only [Bool.not_eq_true] at halias
      simp only [halias, Bool.false_eq_true, if_false]

/-- Witness for `c3_route53_zone_crossref` at the concrete two-resource set
`[zoneZ123, recordZ123]`. -/
theorem c3_route53_zone_crossref_witness :
    recordZ123.type = "aws_route53_record"
    ∧ route53Process [zoneZ123, recordZ123] recordZ123 ∈
        route53PostConvertHook [zoneZ123, recordZ123] :=
  ⟨rfl, (c3_route53_zone_crossref [zoneZ123, recordZ123] recordZ123
    (List.mem_cons_of_mem _ (List.mem_cons_self _ _)) rfl).1⟩

/-! ### Claim C1: filter expressions never exclude resources -/

/-- **C1.** The claim says resources failing a supplied filter are excluded
from the rendered output.  In the code `Terraformer.applyFilters` parses
each expression and discards the result: it is the identity on the
resource list, so the EC2 instance `ec2Unmatched` — which fails the
filter `ec2=i-1` under the specification's evaluation rule — is still
rendered. -/
theorem c1_filters_never_applied :
    (∀ (resources : List TerraformResource) (filters : List String),
        applyFilters resources filters = resources)
    ∧ passesAllFilters "ec2" ec2Unmatched ["ec2=i-1"] = false
    ∧ applyFilters [ec2Unmatched] ["ec2=i-1"] = [ec2Unmatched]
    ∧ jsIncludes (generateHclResources (applyFilters [ec2Unmatched] ["ec2=i-1"]))
        "resource \"aws_instance\" \"inst\"" = true := by
  have hid : ∀ (resources : List TerraformResource) (filters : List String),
      applyFilters resources filters = resources := by
    intro resources filters
    unfold applyFilters
    induction filters with
    | nil => rfl
    | cons f fs ih => rw [List.foldl_cons]; exact ih
  exact ⟨hid, by decide, hid _ _, by decide⟩

/-! ### Claim C4: policy escaping and verbatim emission -/

/-- **C4.** The claim says every `$\x7b` in a policy document is emitted as
`$$\x7b` inside a verbatim sentinel block.  In the code
`escapeAwsInterpolation` is the identity (its JavaScript replacement
string `$$\x7b` denotes the text `$\x7b`), and `formatHclValue` has no
heredoc case: the wrapped policy is emitted as an ordinary double-quoted
single-line string with escaped newlines, still containing the raw
`$\x7b` and no `$$\x7b`. -/
theorem c4_policy_not_escaped_not_verbatim :
    getField ((iamPostConvertHook [iamPolicyInterp]).headD iamPolicyInterp).attributes
        "policy" = some (.str "<<POLICY\n$\x7baws:SourceIp\x7d\nPOLICY")
    ∧ formatHclValue (.str "<<POLICY\n$\x7baws:SourceIp\x7d\nPOLICY") =
        "\"<<POLICY\\n$\x7baws:SourceIp\x7d\\nPOLICY\""
    ∧ jsIncludes (formatHclValue (.str "<<POLICY\n$\x7baws:SourceIp\x7d\nPOLICY"))
        "$$\x7b" = false
    ∧ jsIncludes (formatHclValue (.str "<<POLICY\n$\x7baws:SourceIp\x7d\nPOLICY"))
        "$\x7baws:SourceIp\x7d" = true
    ∧ escapeAwsInterpolation "$\x7baws:SourceIp\x7d" = "$\x7baws:SourceIp\x7d" :=
  ⟨rfl, rfl, by decide, by decide, rfl⟩

/-! ### Claim C5: the field-inclusion policy of the text renderer -/

/-- **C5.** A field is dropped iff its key matches an `ignoreKeys` pattern,
or its value is null/undefined/empty-string and its key matches no
`allowEmptyValues` pattern; in particular the specification's example
resource with `attributes = \x7ba: "", b: "x"\x7d` renders both fields
when `allowEmptyValues = ["a"]` and only `b` without it. -/
theorem c5_field_inclusion_policy :
    (∀ (key : String) (value : HclValue) (r : TerraformResource),
        shouldIncludeAttribute key value r =
          (!(r.ignoreKeys.any (fun pattern => regexTest pattern key)) &&
            (!(isEmptyJsValue value) ||
              r.allowEmptyValues.any (fun pattern => regexTest pattern key))))
    ∧ generateHclResources [allowEmptyExample] =
        "resource \"aws_thing\" \"n\" \x7b\n  a = \"\"\n  b = \"x\"\n\x7d\n\n"
    ∧ generateHclResources [noAllowEmptyExample] =
        "resource \"aws_thing\" \"n\" \x7b\n  b = \"x\"\n\x7d\n\n" := by
  refine ⟨?_, rfl, rfl⟩
  intro key value r
  unfold shouldIncludeAttribute
  by_cases hig : r.ignoreKeys.any (fun pattern => regexTest pattern key) = true
  · simp [hig]
  · simp only [Bool.not_eq_true] at hig
    by_cases hemp : isEmptyJsValue value = true
    · simp [hig, hemp]
    · simp only [Bool.not_eq_true] at hemp
      simp [hig, hemp]

/-! ### Claim C6: the field-form filter with no Value clause fails closed -/

/-- **C6.** Parsing `Type=ec2;Name=instance_type` yields exactly one
predicate with category `ec2`, field path `instance_type` and an empty
acceptable-value list, and under the specification's evaluation rule no
resource of category `ec2` ever passes it. -/
theorem c6_filter_fail_closed :
    parseFilter "Type=ec2;Name=instance_type" =
      [{ serviceName := "ec2", fieldPath := "instance_type", acceptableValues := [] }]
    ∧ ∀ r : TerraformResource,
        passesFilter "ec2" r
          { serviceName := "ec2", fieldPath := "instance_type",
            acceptableValues := [] } = false := by
  refine ⟨by decide, ?_⟩
  intro r
  unfold passesFilter
  have happ : isApplicable
      { serviceName := "ec2", fieldPath := "instance_type", acceptableValues := [] }
      "ec2" = true := by decide
  rw [happ]
  cases hv : resourceValueAtPath r "instance_type" with
  | none => rfl
  | some v =>
    simp only [Bool.not_true, Bool.false_or]
    generalize valueStrings v = l
    induction l with
    | nil => rfl
    | cons a tl ih =>
      simp only [List.any_cons, ih, Bool.or_false]
      rfl

/-! ### Claim C8: post-convert hooks are not idempotent -/

/-- **C8.** The claim says invoking a category's `postConvertHook` twice
leaves the resources exactly as one invocation does.  Both the IAM and
the SNS hooks re-wrap an already-wrapped policy in a second heredoc
block on the second invocation, so the claim fails on the code (the
specification itself flags this as a defect to fix). -/
theorem c8_post_convert_hook_not_idempotent :
    getField ((iamPostConvertHook [iamPolicyEmptyDoc]).headD
        iamPolicyEmptyDoc).attributes "policy" =
      some (.str "<<POLICY\n\x7b\x7d\nPOLICY")
    ∧ getField ((iamPostConvertHook (iamPostConvertHook [iamPolicyEmptyDoc])).headD
        iamPolicyEmptyDoc).attributes "policy" =
      some (.str "<<POLICY\n<<POLICY\n\x7b\x7d\nPOLICY\nPOLICY")
    ∧ iamPostConvertHook (iamPostConvertHook [iamPolicyEmptyDoc]) ≠
        iamPostConvertHook [iamPolicyEmptyDoc]
    ∧ snsPostConvertHook (snsPostConvertHook [snsTopicRes]) ≠
        snsPostConvertHook [snsTopicRes] := by
  have h1 : getField ((iamPostConvertHook [iamPolicyEmptyDoc]).headD
      iamPolicyEmptyDoc).attributes "policy" =
      some (.str "<<POLICY\n\x7b\x7d\nPOLICY") := rfl
  have h2 : getField ((iamPostConvertHook (iamPostConvertHook [iamPolicyEmptyDoc])).headD
      iamPolicyEmptyDoc).attributes "policy" =
      some (.str "<<POLICY\n<<POLICY\n\x7b\x7d\nPOLICY\nPOLICY") := rfl
  refine ⟨h1, h2, ?_, ?_⟩
  · intro h
    have hc := congrArg
      (fun l => getField ((l.headD iamPolicyEmptyDoc).attributes) "policy") h
    have hs := (h2.symm.trans hc).trans h1
    exact absurd (HclValue.str.inj (Option.some.inj hs)) (by decide)
  · intro h
    have hc := congrArg
      (fun l => getField ((l.headD snsTopicRes).attributes) "policy") h
    have hone : getField ((snsPostConvertHook [snsTopicRes]).headD
        snsTopicRes).attributes "policy" =
        some (.str "<<POLICY\n\x7b\x7d\nPOLICY") := rfl
    have htwo : getField ((snsPostConvertHook (snsPostConvertHook [snsTopicRes])).headD
        snsTopicRes).attributes "policy" =
        some (.str "<<POLICY\n<<POLICY\n\x7b\x7d\nPOLICY\nPOLICY") := rfl
    have hs := (htwo.symm.trans hc).trans hone
    exact absurd (HclValue.str.inj (Option.some.inj hs)) (by decide)

/-! ### Claim C10: TTL of alias records still rendered -/

/-- **C10.** The claim says an alias record's rendered configuration
contains no TTL field after the Route53 hook.  In the code the hook
deletes `ttl` from `attributes`, but `loadResourceRecordSets` stores
`ttl` in `additionalFields`, which the renderer merges back in: for the
alias record `recordAliasTtl` (ttl 300) the hook is a no-op and the
rendered block still contains `ttl = 300`. -/
theorem c10_ttl_still_rendered_with_alias :
    truthyOpt (getField recordAliasTtl.additionalFields "alias") = true
    ∧ route53PostConvertHook [recordAliasTtl] = [recordAliasTtl]
    ∧ getField (mergeFields recordAliasTtl.attributes
        recordAliasTtl.additionalFields) "ttl" = some (.num 300)
    ∧ jsIncludes (generateHclResources (route53PostConvertHook [recordAliasTtl]))
        "ttl = 300" = true :=
  ⟨rfl, rfl, rfl, by decide⟩

/-! ### Split/containment lemmas for the filter parser -/

theorem startsWithChars_mem {l pat : List Char} (h : startsWithChars l pat = true) :
    ∀ c ∈ pat, c ∈ l := by
  induction pat generalizing l with
  | nil => intro c hc; cases hc
  | cons p ps ih =>
    cases l with
    | nil => simp [startsWithChars] at h
    | cons a as =>
      simp only [startsWithChars, Bool.and_eq_true, decide_eq_true_eq] at h
      obtain ⟨hap, hrest⟩ := h
      intro c hc
      rcases List.mem_cons.mp hc with hcp | hcps
      · exact List.mem_cons.mpr (Or.inl (hcp ▸ hap.symm))
      · exact List.mem_cons.mpr (Or.inr (ih hrest c hcps))

theorem containsChars_of_mem {l : List Char} {c : Char} (h : c ∈ l) :
    containsChars l [c] = true := by
  induction l with
  | nil => cases h
  | cons a as ih =>
    rcases List.mem_cons.mp h with hca | hcas
    · subst hca
      simp [containsChars, startsWithChars]
    · simp [containsChars, ih hcas]

theorem jsSplitGo_chars {sep : List Char} :
    ∀ (fuel : Nat) (l acc p : List Char), p ∈ jsSplitGo sep fuel l acc →
      ∀ c ∈ p, c ∈ l ∨ c ∈ acc := by
  intro fuel
  induction fuel with
  | zero =>
    intro l acc p hp c hc
    cases l with
    | nil =>
      simp only [jsSplitGo, List.mem_singleton] at hp
      subst hp
      exact Or.inr (List.mem_reverse.mp hc)
    | cons a as =>
      simp only [jsSplitGo, List.mem_singleton] at hp
      subst hp
      rcases List.mem_append.mp hc with hrev | hl
      · exact Or.inr (List.mem_reverse.mp hrev)
      · exact Or.inl hl
  | succ fuel ih =>
    intro l acc p hp c hc
    cases l with
    | nil =>
      simp only [jsSplitGo, List.mem_singleton] at hp
      subst hp
      exact Or.inr (List.mem_reverse.mp hc)
    | cons a as =>
      by_cases hcond : sep ≠ [] ∧ startsWithChars (a :: as) sep = true
      · rw [jsSplitGo, if_pos hcond] at hp
        rcases List.mem_cons.mp hp with hrev | hrec
        · subst hrev
          exact Or.inr (List.mem_reverse.mp hc)
        · rcases ih _ _ _ hrec c hc with hdrop | habs
          · exact Or.inl (List.drop_subset _ _ hdrop)
          · cases habs
      · rw [jsSplitGo, if_neg hcond] at hp
        rcases ih _ _ _ hp c hc with has | hacc
        · exact Or.inl (List.mem_cons.mpr (Or.inr has))
        · rcases List.mem_cons.mp hacc with hca | hacc'
          · exact Or.inl (List.mem_cons.mpr (Or.inl hca))
          · exact Or.inr hacc'

theorem jsSplitGo_ne_nil {sep : List Char} :
    ∀ (fuel : Nat) (l acc : List Char), jsSplitGo sep fuel l acc ≠ [] := by
  intro fuel
  induction fuel with
  | zero =>
    intro l acc
    cases l <;> simp [jsSplitGo]
  | succ fuel ih =>
    intro l acc
    cases l with
    | nil => simp [jsSplitGo]
    | cons a as =>
      by_cases hcond : sep ≠ [] ∧ startsWithChars (a :: as) sep = true
      · rw [jsSplitGo, if_pos hcond]
        exact List.cons_ne_nil _ _
      · rw [jsSplitGo, if_neg hcond]
        exact ih _ _

theorem jsSplit_chars {s sep : String} {q : String} (hq : q ∈ jsSplit s sep) :
    ∀ c ∈ q.toList, c ∈ s.toList := by
  unfold jsSplit at hq
  by_cases hsep : sep.toList.isEmpty
  · rw [if_pos hsep] at hq
    simp only [List.mem_singleton] at hq
    subst hq
    exact fun c hc => hc
  · rw [if_neg hsep] at hq
    obtain ⟨l, hl, hql⟩ := List.mem_map.mp hq
    intro c hc
    have hcl : c ∈ l := by
      rw [← hql] at hc
      exact hc
    rcases jsSplitGo_chars _ _ _ _ hl c hcl with hs | habs
    · exact hs
    · cases habs

theorem jsSplit_ne_nil (s sep : String) : jsSplit s sep ≠ [] := by
  unfold jsSplit
  by_cases hsep : sep.toList.isEmpty
  · rw [if_pos hsep]
    exact List.cons_ne_nil _ _
  · rw [if_neg hsep]
    intro hmap
    exact jsSplitGo_ne_nil _ _ _ (List.map_eq_nil_iff.mp hmap)

/-! ### Claim C7: parsing an expression with no equals sign -/

/-- **C7 counterexample.** The claim says an expression containing no `=`
yields an empty predicate list; `parseFilter "foo"` in fact yields one
predicate (wildcard category, field path `foo`, empty value set). -/
theorem c7_malformed_filter_counterexample :
    parseFilter "foo" =
      [{ serviceName := "", fieldPath := "foo", acceptableValues := [] }]
    ∧ parseFilter "foo" ≠ [] :=
  ⟨by decide, by decide⟩

/-- **C7 amended.** For every input string containing no `=` character,
`parseFilter` returns exactly one predicate whose category is empty,
whose field path is the first `;`-separated clause of the input and
whose acceptable-value list is empty — and, being a total function, it
never raises. -/
theorem c7_malformed_filter_one_predicate (s : String)
    (h : jsIncludes s "=" = false) :
    parseFilter s = [{ serviceName := "", fieldPath := (jsSplit s ";").headD "",
                       acceptableValues := [] }] := by
  have heqmem : ('=' : Char) ∉ s.toList := by
    intro hmem
    have := containsChars_of_mem hmem
    rw [show jsIncludes s "=" = containsChars s.toList ['='] from rfl] at h
    rw [this] at h
    cases h
  have hnostart : ∀ q ∈ jsSplit s ";", ∀ pre : String, ('=' : Char) ∈ pre.toList →
      jsStartsWith q pre = false := by
    intro q hq pre hpre
    cases hx : jsStartsWith q pre with
    | false => rfl
    | true =>
      have : ('=' : Char) ∈ q.toList := startsWithChars_mem hx _ hpre
      exact absurd (jsSplit_chars hq _ this) heqmem
  unfold parseFilter
  rw [h, Bool.and_false, if_neg (by simp)]
  cases hparts : jsSplit s ";" with
  | nil => exact absurd hparts (jsSplit_ne_nil s ";")
  | cons p0 rest =>
    have hp0 : p0 ∈ jsSplit s ";" := hparts ▸ List.mem_cons_self _ _
    have hp0start := hnostart p0 hp0 "Type=" (by decide)
    rw [if_pos (by simp)]
    simp only [List.headD_cons, List.head?_cons, Option.getD_some, hp0start,
      Bool.false_eq_true, if_false]
    cases rest with
    | nil => rfl
    | cons p1 rest' =>
      have hp1 : p1 ∈ jsSplit s ";" := by
        rw [hparts]
        exact List.mem_cons_of_mem _ (List.mem_cons_self _ _)
      have hp1start := hnostart p1 hp1 "Name=" (by decide)
      simp only [List.getElem?_cons_succ, List.getElem?_cons_zero, hp1start,
        Bool.false_eq_true, if_false]
      cases rest' with
      | nil => rfl
      | cons p2 rest'' =>
        have hp2 : p2 ∈ jsSplit s ";" := by
          rw [hparts]
          exact List.mem_cons_of_mem _ (List.mem_cons_of_mem _ (List.mem_cons_self _ _))
        have hp2start := hnostart p2 hp2 "Value=" (by decide)
        simp only [List.getElem?_cons_succ, List.getElem?_cons_zero, hp2start,
          Bool.false_eq_true, if_false]

/-- Witness for `c7_malformed_filter_one_predicate` at `s = "foo"`. -/
theorem c7_malformed_filter_one_predicate_witness :
    jsIncludes "foo" "=" = false
    ∧ parseFilter "foo" = [{ serviceName := "", fieldPath := (jsSplit "foo" ";").headD "",
                             acceptableValues := [] }] :=
  ⟨by decide, c7_malformed_filter_one_predicate "foo" (by decide)⟩

/-! ### Character lemmas for the sanitizer -/

theorem charOfNat_toNat {n : Nat} (h1 : 65 ≤ n) (h2 : n ≤ 122) :
    (Char.ofNat n).toNat = n := by
  unfold Char.ofNat
  have hvalid : n.isValidChar := Or.inl (by omega)
  rw [dif_pos hvalid]
  simp [Char.ofNatAux, Char.toNat, UInt32.ofNat', BitVec.ofNatLt, UInt32.toNat]

theorem isUpper_iff_toNat {c : Char} :
    c.isUpper = true ↔ 65 ≤ c.toNat ∧ c.toNat ≤ 90 := by
  simp [Char.isUpper, UInt32.le_def, Char.toNat, UInt32.toNat, BitVec.le_def]

theorem isLower_iff_toNat {c : Char} :
    c.isLower = true ↔ 97 ≤ c.toNat ∧ c.toNat ≤ 122 := by
  simp [Char.isLower, UInt32.le_def, Char.toNat, UInt32.toNat, BitVec.le_def]

theorem isDigit_iff_toNat {c : Char} :
    c.isDigit = true ↔ 48 ≤ c.toNat ∧ c.toNat ≤ 57 := by
  simp [Char.isDigit, UInt32.le_def, Char.toNat, UInt32.toNat, BitVec.le_def]

theorem toLower_eq_of_not_upper {c : Char} (h : c.isUpper = false) :
    Char.toLower c = c := by
  unfold Char.toLower
  rw [if_neg]
  intro ⟨h1, h2⟩
  rw [show (c.isUpper = false) ↔ ¬ (65 ≤ c.toNat ∧ c.toNat ≤ 90) by
    rw [← isUpper_iff_toNat]; simp] at h
  exact h ⟨h1, h2⟩

theorem toLower_isLower_of_upper {c : Char} (h : c.isUpper = true) :
    (Char.toLower c).isLower = true := by
  obtain ⟨h1, h2⟩ := isUpper_iff_toNat.mp h
  unfold Char.toLower
  rw [if_pos ⟨h1, h2⟩]
  rw [isLower_iff_toNat, charOfNat_toNat (by omega) (by omega)]
  omega

theorem toLower_not_digit {c : Char} (h : c.isDigit = false) :
    (Char.toLower c).isDigit = false := by
  cases hu : c.isUpper with
  | false => rw [toLower_eq_of_not_upper hu]; exact h
  | true =>
    obtain ⟨h1, h2⟩ := isUpper_iff_toNat.mp hu
    unfold Char.toLower
    rw [if_pos ⟨h1, h2⟩]
    rw [show ((Char.ofNat (c.toNat + 32)).isDigit = false) ↔
        ¬ (48 ≤ (Char.ofNat (c.toNat + 32)).toNat ∧
           (Char.ofNat (c.toNat + 32)).toNat ≤ 57) by
      rw [← isDigit_iff_toNat]; simp]
    rw [charOfNat_toNat (by omega) (by omega)]
    omega

/-- The character class the amended sanitization-range claim asserts:
lowercase letter, digit, underscore or hyphen. -/
def sanitizedChar (c : Char) : Bool :=
  c.isLower || c.isDigit || c = '_' || c = '-'

theorem sanitizedChar_toLower_of_keep {c : Char} (h : sanitizeKeep c = true) :
    sanitizedChar (Char.toLower c) = true := by
  cases hu : c.isUpper with
  | true =>
    unfold sanitizedChar
    rw [toLower_isLower_of_upper hu]
    rfl
  | false =>
    rw [toLower_eq_of_not_upper hu] at *
    unfold sanitizeKeep at h
    unfold sanitizedChar
    simp only [Char.isAlpha, hu, Bool.false_or] at h
    exact h

theorem mem_sanitizeLeadingDigit {l : List Char} {c : Char}
    (h : c ∈ sanitizeLeadingDigit l) : c ∈ l ∨ c = '_' := by
  cases l with
  | nil => cases h
  | cons a as =>
    simp only [sanitizeLeadingDigit] at h
    by_cases hd : a.isDigit = true
    · rw [if_pos hd] at h
      rcases List.mem_cons.mp h with hu | hrest
      · exact Or.inr hu
      · exact Or.inl hrest
    · rw [if_neg hd] at h
      exact Or.inl h

/-! ### Claim C9: range of sanitizeName -/

/-- **C9 counterexample.** The claim says `sanitizeName s` always matches
`^[_a-zA-Z][_a-zA-Z0-9-]*$`; but `sanitizeName "-" = "-"`, which starts
with a hyphen and does not match (the empty string `sanitizeName "" = ""`
fails the anchor too). -/
theorem c9_sanitize_range_counterexample :
    sanitizeName "-" = "-"
    ∧ matchesTfName (sanitizeName "-") = false
    ∧ sanitizeName "" = ""
    ∧ matchesTfName (sanitizeName "") = false :=
  ⟨rfl, by decide, rfl, by decide⟩

/-- **C9 amended.** For every string `s`, every character of
`sanitizeName s` lies in `[a-z0-9_-]` (in particular the result is
entirely lowercase) and the first character is never a digit; the result
need not match `^[_a-zA-Z][_a-zA-Z0-9-]*$`, since it can be empty or
start with `-`. -/
theorem c9_sanitize_range_amended (s : String) :
    (sanitizeName s).toList.all sanitizedChar = true
    ∧ ((sanitizeName s).toList.headD '_').isDigit = false := by
  constructor
  · rw [List.all_eq_true]
    intro c hc
    have hlist : c ∈ (sanitizeLeadingDigit
        (s.toList.map (fun c => if sanitizeKeep c then c else '_'))).map Char.toLower := hc
    obtain ⟨d, hd, hdc⟩ := List.mem_map.mp hlist
    rcases mem_sanitizeLeadingDigit hd with hdm | hdu
    · obtain ⟨e, _, hed⟩ := List.mem_map.mp hdm
      have hkeep : sanitizeKeep d = true := by
        rw [← hed]
        by_cases hk : sanitizeKeep e = true
        · rw [if_pos hk]; exact hk
        · rw [if_neg hk]; decide
      rw [← hdc]
      exact sanitizedChar_toLower_of_keep hkeep
    · rw [← hdc, hdu]
      decide
  · cases hl : s.toList.map (fun c => if sanitizeKeep c then c else '_') with
    | nil =>
      have : (sanitizeName s).toList = [] := by
        show (sanitizeLeadingDigit (s.toList.map _)).map Char.toLower = []
        rw [hl]
        rfl
      rw [this]
      decide
    | cons a as =>
      have hshow : (sanitizeName s).toList =
          (sanitizeLeadingDigit (a :: as)).map Char.toLower := by
        show (sanitizeLeadingDigit (s.toList.map _)).map Char.toLower = _
        rw [hl]
      by_cases hd : a.isDigit = true
      · rw [hshow]
        simp only [sanitizeLeadingDigit]
        rw [if_pos hd]
        simp only [List.map_cons, List.headD_cons]
        decide
      · rw [hshow]
        simp only [sanitizeLeadingDigit]
        rw [if_neg hd]
        simp only [List.map_cons, List.headD_cons]
        exact toLower_not_digit (by simpa using hd)

/-! ### Grouping and state-entry lemmas for config/state parity -/

theorem pushGroup_flatten_perm (acc : List (String × List TerraformResource))
    (key : String) (r : TerraformResource) :
    ((pushGroup acc key r).map (fun g => g.2)).flatten.Perm
      ((acc.map (fun g => g.2)).flatten ++ [r]) := by
  induction acc with
  | nil => simp [pushGroup]
  | cons p rest ih =>
    obtain ⟨k, l⟩ := p
    by_cases hk : k = key
    · simp only [pushGroup, if_pos hk, List.map_cons, List.flatten_cons]
      rw [List.append_assoc, List.append_assoc]
      exact (@List.perm_append_comm _ [r] _).append_left l
    · simp only [pushGroup, if_neg hk, List.map_cons, List.flatten_cons]
      rw [List.append_assoc]
      exact (ih.trans (List.Perm.refl _)).append_left l

theorem groupFold_flatten_perm (rs : List TerraformResource) :
    ∀ acc : List (String × List TerraformResource),
      (((rs.foldl (fun acc r => pushGroup acc (stripProviderFromType r) r) acc)).map
        (fun g => g.2)).flatten.Perm ((acc.map (fun g => g.2)).flatten ++ rs) := by
  induction rs with
  | nil => intro acc; simp
  | cons a tl ih =>
    intro acc
    rw [List.foldl_cons]
    refine (ih (pushGroup acc (stripProviderFromType a) a)).trans ?_
    have hpush := pushGroup_flatten_perm acc (stripProviderFromType a) a
    refine (hpush.append_right tl).trans ?_
    rw [List.append_assoc]
    exact List.Perm.refl _

/-- The sequence of resource blocks emitted by `generateHclResources` is a
permutation of the input resource list (grouping by type only reorders,
it never drops or duplicates). -/
theorem groupedResourceOrder_perm (rs : List TerraformResource) :
    (groupedResourceOrder rs).Perm rs := by
  have h := groupFold_flatten_perm rs []
  simpa [groupedResourceOrder, groupResourcesByType] using h

theorem stateEntriesFrom_countP (priv : Nat → String) (t n : String) :
    ∀ (rs : List TerraformResource) (i : Nat),
      (stateEntriesFrom priv rs i).countP (fun e => e.type == t && e.name == n) =
        rs.countP (fun x => x.type == t && x.name == n) := by
  intro rs
  induction rs with
  | nil => intro i; rfl
  | cons a tl ih =>
    intro i
    simp only [stateEntriesFrom, List.countP_cons, ih]
    rfl

theorem countP_pair_eq_one (rs : List TerraformResource) (r : TerraformResource)
    (hmem : r ∈ rs) (hnd : (rs.map (fun x => (x.type, x.name))).Nodup) :
    rs.countP (fun x => x.type == r.type && x.name == r.name) = 1 := by
  induction rs with
  | nil => cases hmem
  | cons a tl ih =>
    rw [List.map_cons, List.nodup_cons] at hnd
    obtain ⟨hnotin, hnd'⟩ := hnd
    rw [List.countP_cons]
    rcases List.mem_cons.mp hmem with hra | hrtl
    · subst hra
      have hz : tl.countP (fun x => x.type == r.type && x.name == r.name) = 0 := by
        rw [List.countP_eq_zero]
        intro x hx hpx
        simp only [Bool.and_eq_true, beq_iff_eq] at hpx
        exact hnotin (List.mem_map.mpr ⟨x, hx, by rw [hpx.1, hpx.2]⟩)
      rw [hz]
      simp
    · have hpa : (a.type == r.type && a.name == r.name) = false := by
        by_contra hcon
        simp only [Bool.not_eq_false, Bool.and_eq_true, beq_iff_eq] at hcon
        exact hnotin (List.mem_map.mpr ⟨r, hrtl, by rw [hcon.1, hcon.2]⟩)
      rw [hpa]
      simpa using ih hrtl hnd'

/-! ### Claim C2: config/state name parity -/

/-- **C2.** For every resource list with pairwise-distinct `(type, name)`
pairs, every resource that `generateHclResources` emits as a block has
exactly one entry in the state document produced by
`generateTerraformState` over the same list whose `type` and `name`
fields are identical. -/
theorem c2_config_state_name_parity
    (resources : List TerraformResource) (lineage : String) (priv : Nat → String)
    (r : TerraformResource)
    (hnd : (resources.map (fun x => (x.type, x.name))).Nodup)
    (hr : r ∈ groupedResourceOrder resources) :
    ((generateTerraformState resources lineage priv).resources.filter
      (fun e => e.type == r.type && e.name == r.name)).length = 1 := by
  have hmem : r ∈ resources := (groupedResourceOrder_perm resources).mem_iff.mp hr
  have hfl : ((generateTerraformState resources lineage priv).resources.filter
      (fun e => e.type == r.type && e.name == r.name)).length =
      (generateTerraformState resources lineage priv).resources.countP
        (fun e => e.type == r.type && e.name == r.name) := by
    rw [List.countP_eq_length_filter]
  rw [hfl]
  show (stateEntriesFrom priv resources 0).countP
    (fun e => e.type == r.type && e.name == r.name) = 1
  rw [stateEntriesFrom_countP]
  exact countP_pair_eq_one resources r hmem hnd

/-- Witness for `c2_config_state_name_parity` on the two-resource demo
list. -/
theorem c2_config_state_name_parity_witness :
    ((generateTerraformState parityDemoList "lineage" (fun _ => "pk")).resources.filter
      (fun e => e.type == (parityDemoList.headD ec2Unmatched).type &&
        e.name == (parityDemoList.headD ec2Unmatched).name)).length = 1 :=
  c2_config_state_name_parity parityDemoList "lineage" (fun _ => "pk")
    (parityDemoList.headD ec2Unmatched) (by decide)
    (List.mem_cons_self _ _)

end TerraformerTs
